import Mathlib

/-!
A shallow embedding of the server-side logic of the TransplantFood
repository (rate limiter, push-subscription registry and its two id
derivations, the analyze/meals request handlers with their input
validation and response parsing, and the client-side secure-storage
obfuscation layer), together with theorems settling the frozen claims
about this code.

Conventions: JavaScript numbers that the code uses as integers
(timestamps, counters, request limits) are embedded as `Int`; machine
32-bit wrap-around (the `hash & hash` coercion, SHA-256 word
arithmetic) is made explicit with `% 2 ^ 32`; the mutable module-level
maps (rate-limit store, subscription registry, localStorage) are
embedded as explicit `String → Option _` states threaded through the
operations; fallible platform calls (`atob`, regex matching,
`JSON.parse`) return `Option`.
-/

namespace Architech

/-! ## JavaScript string primitives (whitespace, trim, toLowerCase) -/

/-- The JavaScript `\s` / `String.prototype.trim` whitespace set
(WhiteSpace ∪ LineTerminator of ECMA-262). -/
def isJsWS (c : Char) : Bool :=
  c.toNat = 9 || c.toNat = 10 || c.toNat = 11 || c.toNat = 12 || c.toNat = 13 ||
  c.toNat = 32 || c.toNat = 160 || c.toNat = 5760 ||
  (8192 ≤ c.toNat && c.toNat ≤ 8202) ||
  c.toNat = 8232 || c.toNat = 8233 || c.toNat = 8239 || c.toNat = 8287 ||
  c.toNat = 12288 || c.toNat = 65279

/-- JavaScript `String.prototype.trim`: strip the whitespace set from both
ends. -/
def jsTrim (s : String) : String :=
  ⟨((s.data.dropWhile isJsWS).reverse.dropWhile isJsWS).reverse⟩

/-- JavaScript `String.prototype.toLowerCase`, restricted to the ASCII
range (the only case-carrying characters the embedded call sites feed it). -/
def jsToLower (s : String) : String :=
  ⟨s.data.map Char.toLower⟩

/-- Case-insensitive prefix test: `pat` (given lower-cased) matches the
start of `cs`, the way a `/i` regex literal matches. -/
def ciPrefixOf (pat cs : List Char) : Bool :=
  (cs.take pat.length).map Char.toLower == pat

/-! ## Rate limiter (`rate-limit.ts`) -/

/-- Source `interface RateLimitEntry { count, resetTime }`. -/
structure RateLimitEntry where
  count : Int
  resetTime : Int
deriving DecidableEq, Repr

/-- Source `interface RateLimitConfig { maxRequests, windowMs }`. -/
structure RateLimitConfig where
  maxRequests : Int
  windowMs : Int
deriving DecidableEq, Repr

/-- Source `interface RateLimitResult { success, remaining, resetTime }`. -/
structure RateLimitResult where
  success : Bool
  remaining : Int
  resetTime : Int
deriving DecidableEq, Repr

/-- The module-level `rateLimitStore : Map<string, RateLimitEntry>`. -/
def RLStore : Type := String → Option RateLimitEntry

/-- The store before any request was handled. -/
def emptyRLStore : RLStore := fun _ => none

/-- Source `checkRateLimit(identifier, config)` at current time `now`: returns the
result together with the store as the call leaves it.  Mirrors the source:
no entry or `entry.resetTime < now` installs a fresh `{count: 1, resetTime:
now + windowMs}`; a live entry with `count >= maxRequests` denies without
mutation; otherwise `entry.count++`. -/
def checkRateLimit (now : Int) (identifier : String) (config : RateLimitConfig)
    (store : RLStore) : RateLimitResult × RLStore :=
  match store identifier with
  | none =>
    (⟨true, config.maxRequests - 1, now + config.windowMs⟩,
     fun k => if k = identifier then some ⟨1, now + config.windowMs⟩ else store k)
  | some entry =>
    if entry.resetTime < now then
      (⟨true, config.maxRequests - 1, now + config.windowMs⟩,
       fun k => if k = identifier then some ⟨1, now + config.windowMs⟩ else store k)
    else if config.maxRequests ≤ entry.count then
      (⟨false, 0, entry.resetTime⟩, store)
    else
      (⟨true, config.maxRequests - (entry.count + 1), entry.resetTime⟩,
       fun k => if k = identifier then some ⟨entry.count + 1, entry.resetTime⟩ else store k)

/-- The periodic cleanup sweep: delete every entry whose window has
expired (`entry.resetTime < now`). -/
def cleanupSweep (now : Int) (store : RLStore) : RLStore :=
  fun k =>
    match store k with
    | some e => if e.resetTime < now then none else some e
    | none => none

/-- A sequence of `checkRateLimit` calls for one identifier and config, at
the given times, threading the store; returns the results in call order. -/
def runSeq (id : String) (cfg : RateLimitConfig) :
    List Int → RLStore → List RateLimitResult × RLStore
  | [], s => ([], s)
  | t :: ts, s =>
    let p := checkRateLimit t id cfg s
    let q := runSeq id cfg ts p.2
    (p.1 :: q.1, q.2)

/-- An event of the rate limiter's life: a `checkRateLimit` call for some
identifier, or a cleanup sweep. -/
inductive RLEvent where
  | call (now : Int) (id : String)
  | sweep (now : Int)
deriving DecidableEq

/-- Run a trace of calls and sweeps (each identifier always checked with
`cfgOf id`, as the claim's hypothesis fixes one config per identifier);
returns the final store and every produced result tagged with its call
time. -/
def runTrace (cfgOf : String → RateLimitConfig) :
    List RLEvent → RLStore → RLStore × List (Int × RateLimitResult)
  | [], s => (s, [])
  | RLEvent.call now id :: es, s =>
    let p := checkRateLimit now id (cfgOf id) s
    let q := runTrace cfgOf es p.2
    (q.1, (now, p.1) :: q.2)
  | RLEvent.sweep now :: es, s => runTrace cfgOf es (cleanupSweep now s)

/-! ## UTF-8 / UTF-16 encodings of strings

Node's `crypto.createHash(...).update(string)` hashes the UTF-8 bytes of
the string; `String.prototype.charCodeAt` yields UTF-16 code units. -/

/-- The UTF-8 bytes of one Unicode scalar value. -/
def utf8EncodeChar (c : Char) : List Nat :=
  let n := c.toNat
  if n < 128 then [n]
  else if n < 2048 then [192 + n / 64, 128 + n % 64]
  else if n < 65536 then [224 + n / 4096, 128 + n / 64 % 64, 128 + n % 64]
  else [240 + n / 262144, 128 + n / 4096 % 64, 128 + n / 64 % 64, 128 + n % 64]

/-- The UTF-8 bytes of a string (given as its character list). -/
def utf8Encode : List Char → List Nat
  | [] => []
  | c :: cs => utf8EncodeChar c ++ utf8Encode cs

/-- The UTF-16 code units of one Unicode scalar value (surrogate pair for
the supplementary planes), as `charCodeAt` enumerates them. -/
def utf16Units (c : Char) : List Nat :=
  let n := c.toNat
  if n < 65536 then [n]
  else [55296 + (n - 65536) / 1024, 56320 + (n - 65536) % 1024]

/-- The UTF-16 code units of a string. -/
def utf16Encode : List Char → List Nat
  | [] => []
  | c :: cs => utf16Units c ++ utf16Encode cs

/-! ## SHA-256 (the `crypto.createHash('sha256')` used by the subscribe
route), FIPS 180-4 over byte lists, words as `Nat` mod `2 ^ 32` -/

/-- Rotate a 32-bit word right by `n` (for `x < 2 ^ 32`, `n ≤ 32`). -/
def rotr32 (x n : Nat) : Nat := (x / 2 ^ n + x * 2 ^ (32 - n)) % 2 ^ 32

/-- SHA-256 `Ch(e, f, g)`. -/
def sha256Ch (e f g : Nat) : Nat := (e &&& f) ^^^ ((4294967295 ^^^ e) &&& g)

/-- SHA-256 `Maj(a, b, c)`. -/
def sha256Maj (a b c : Nat) : Nat := (a &&& b) ^^^ (a &&& c) ^^^ (b &&& c)

/-- SHA-256 `Σ0`. -/
def bsig0 (x : Nat) : Nat := rotr32 x 2 ^^^ rotr32 x 13 ^^^ rotr32 x 22

/-- SHA-256 `Σ1`. -/
def bsig1 (x : Nat) : Nat := rotr32 x 6 ^^^ rotr32 x 11 ^^^ rotr32 x 25

/-- SHA-256 `σ0`. -/
def ssig0 (x : Nat) : Nat := rotr32 x 7 ^^^ rotr32 x 18 ^^^ x / 2 ^ 3

/-- SHA-256 `σ1`. -/
def ssig1 (x : Nat) : Nat := rotr32 x 17 ^^^ rotr32 x 19 ^^^ x / 2 ^ 10

/-- The 64 SHA-256 round constants. -/
def sha256K : List Nat :=
  [1116352408, 1899447441, 3049323471, 3921009573, 961987163, 1508970993,
   2453635748, 2870763221, 3624381080, 310598401, 607225278, 1426881987,
   1925078388, 2162078206, 2614888103, 3248222580, 3835390401, 4022224774,
   264347078, 604807628, 770255983, 1249150122, 1555081692, 1996064986,
   2554220882, 2821834349, 2952996808, 3210313671, 3336571891, 3584528711,
   113926993, 338241895, 666307205, 773529912, 1294757372, 1396182291,
   1695183700, 1986661051, 2177026350, 2456956037, 2730485921, 2820302411,
   3259730800, 3345764771, 3516065817, 3600352804, 4094571909, 275423344,
   430227734, 506948616, 659060556, 883997877, 958139571, 1322822218,
   1537002063, 1747873779, 1955562222, 2024104815, 2227730452, 2361852424,
   2428436474, 2756734187, 3204031479, 3329325298]

/-- The initial hash value H(0). -/
def sha256H0 : List Nat :=
  [1779033703, 3144134277, 1013904242, 2773480762,
   1359893119, 2600822924, 528734635, 1541459225]

/-- Big-endian 32-bit words from a byte list (length a multiple of 4). -/
def bytesToWords : List Nat → List Nat
  | b0 :: b1 :: b2 :: b3 :: rest =>
    (b0 * 16777216 + b1 * 65536 + b2 * 256 + b3) :: bytesToWords rest
  | _ => []

/-- Split a word list into 16-word blocks. -/
def wordBlocks : List Nat → List (List Nat)
  | w0 :: w1 :: w2 :: w3 :: w4 :: w5 :: w6 :: w7 ::
    w8 :: w9 :: w10 :: w11 :: w12 :: w13 :: w14 :: w15 :: rest =>
    [w0, w1, w2, w3, w4, w5, w6, w7, w8, w9, w10, w11, w12, w13, w14, w15] :: wordBlocks rest
  | _ => []

/-- Extend a 16-word block by `k` schedule words
`W t = σ1 (W (t-2)) + W (t-7) + σ0 (W (t-15)) + W (t-16)` (mod `2 ^ 32`). -/
def sha256ExtendW : Nat → List Nat → List Nat
  | 0, ws => ws
  | k + 1, ws =>
    sha256ExtendW k
      (ws ++ [(ssig1 (ws.getD (ws.length - 2) 0) + ws.getD (ws.length - 7) 0 +
               ssig0 (ws.getD (ws.length - 15) 0) + ws.getD (ws.length - 16) 0) % 2 ^ 32])

/-- One compression round on the state `[a, b, c, d, e, f, g, h]`. -/
def sha256Round (w k : Nat) (st : List Nat) : List Nat :=
  let a := st.getD 0 0
  let b := st.getD 1 0
  let c := st.getD 2 0
  let d := st.getD 3 0
  let e := st.getD 4 0
  let f := st.getD 5 0
  let g := st.getD 6 0
  let h := st.getD 7 0
  let t1 := (h + bsig1 e + sha256Ch e f g + k + w) % 2 ^ 32
  let t2 := (bsig0 a + sha256Maj a b c) % 2 ^ 32
  [(t1 + t2) % 2 ^ 32, a, b, c, (d + t1) % 2 ^ 32, e, f, g]

/-- Process one 16-word block into the running hash. -/
def sha256Block (hv : List Nat) (block : List Nat) : List Nat :=
  let w := sha256ExtendW 48 block
  let st := (w.zip sha256K).foldl (fun s p => sha256Round p.1 p.2 s) hv
  (hv.zip st).map (fun p => (p.1 + p.2) % 2 ^ 32)

/-- Big-endian bytes of the 64-bit message bit length. -/
def sha256LenBytes (bl : Nat) : List Nat :=
  [bl / 2 ^ 56 % 256, bl / 2 ^ 48 % 256, bl / 2 ^ 40 % 256, bl / 2 ^ 32 % 256,
   bl / 2 ^ 24 % 256, bl / 2 ^ 16 % 256, bl / 2 ^ 8 % 256, bl % 256]

/-- SHA-256 padding: `0x80`, zeros to 56 mod 64, 8-length bytes. -/
def sha256Pad (msg : List Nat) : List Nat :=
  let padZeros := (119 - msg.length % 64) % 64
  msg ++ [128] ++ List.replicate padZeros 0 ++ sha256LenBytes (8 * msg.length % 2 ^ 64)

/-- Big-endian bytes of a word list. -/
def wordsToBytes : List Nat → List Nat
  | [] => []
  | w :: ws => w / 16777216 % 256 :: w / 65536 % 256 :: w / 256 % 256 :: w % 256 :: wordsToBytes ws

/-- The 32 digest bytes of SHA-256 over a byte message. -/
def sha256Bytes (msg : List Nat) : List Nat :=
  wordsToBytes ((wordBlocks (bytesToWords (sha256Pad msg))).foldl sha256Block sha256H0)

/-- Lower-case hex digit. -/
def hexChar (n : Nat) : Char := "0123456789abcdef".data.getD n '0'

/-- Lower-case hex rendering of a byte list. -/
def hexOfBytes : List Nat → List Char
  | [] => []
  | b :: bs => hexChar (b / 16) :: hexChar (b % 16) :: hexOfBytes bs

/-- Source `crypto.createHash('sha256').update(s).digest('hex')`. -/
def sha256Hex (s : String) : String := ⟨hexOfBytes (sha256Bytes (utf8Encode s.data))⟩

/-! ## Push subscription registry and the two endpoint-to-id derivations -/

/-- Source `generateSecureIdFromEndpoint` of the subscribe route: `user_` plus the
first 16 hex characters of the endpoint's SHA-256. -/
def generateSecureIdFromEndpoint (endpoint : String) : String :=
  ⟨"user_".data ++ (sha256Hex endpoint).data.take 16⟩

/-- Signed 32-bit coercion (`ToInt32`, what `hash & hash` performs). -/
def toInt32 (n : Int) : Int := (n + 2147483648) % 4294967296 - 2147483648

/-- One step of the send route's string hash:
`hash = ((hash << 5) - hash) + char; hash = hash & hash`. -/
def jsHashStep (h : Int) (c : Nat) : Int := toInt32 (toInt32 (h * 32) - h + c)

/-- The send route's 32-bit accumulator hash over the UTF-16 code units. -/
def jsHash (s : String) : Int := (utf16Encode s.data).foldl jsHashStep 0

/-- Source `generateIdFromEndpoint` of the send route: `user_` plus the decimal
rendering of `Math.abs(hash)`. -/
def generateIdFromEndpoint (endpoint : String) : String :=
  ⟨"user_".data ++ (toString (jsHash endpoint).natAbs).data⟩

/-- A push subscription as the validation sees it: the endpoint URL and
whether a `keys` object is present. -/
structure PushSub where
  endpoint : String
  hasKeys : Bool
deriving DecidableEq

/-- Source `ValidationResult` of `validation.ts`. -/
structure ValidationResult where
  valid : Bool
  errors : List String
deriving DecidableEq

/-- Source `validatePushSubscription`: the endpoint must be a string starting with
`https://` and a `keys` object must be present. -/
def validatePushSubscription (sub : PushSub) : ValidationResult :=
  let errs :=
    (if "https://".data.isPrefixOf sub.endpoint.data then [] else ["Invalid endpoint URL"]) ++
    (if sub.hasKeys then [] else ["Missing subscription keys"])
  ⟨errs.isEmpty, errs⟩

/-- The module-level `subscriptions : Map<string, PushSubscription>`. -/
def Registry : Type := String → Option PushSub

/-- The registry before any subscription was saved. -/
def emptyRegistry : Registry := fun _ => none

/-- Source `saveSubscription(userId, subscription)`. -/
def saveSubscription (userId : String) (sub : PushSub) (reg : Registry) : Registry :=
  fun k => if k = userId then some sub else reg k

/-- Source `getSubscription(userId)`. -/
def getSubscription (userId : String) (reg : Registry) : Option PushSub := reg userId

/-- Source `removeSubscription(userId)`. -/
def removeSubscription (userId : String) (reg : Registry) : Registry :=
  fun k => if k = userId then none else reg k

/-- JavaScript truthiness of an optional string field (absent, `null` and
the empty string are falsy). -/
def truthyOpt : Option String → Bool
  | none => false
  | some s => !(s == "")

/-- Source `POST /api/push/subscribe`: status code and the registry it leaves.
`configured` is `isConfigured()`; an absent `subscription` field is `none`. -/
def subscribePOST (configured : Bool) (subscription : Option PushSub)
    (userId : Option String) (reg : Registry) : Nat × Registry :=
  if !configured then (503, reg)
  else
    match subscription with
    | none => (400, reg)
    | some sub =>
      if !(validatePushSubscription sub).valid then (400, reg)
      else
        let id :=
          match userId with
          | some u => if u = "" then generateSecureIdFromEndpoint sub.endpoint else u
          | none => generateSecureIdFromEndpoint sub.endpoint
        (200, saveSubscription id sub reg)

/-- The id the DELETE handler acts on: `userId || generateSecureIdFromEndpoint(endpoint)`. -/
def deleteDerivedId (userId endpoint : Option String) : String :=
  if truthyOpt userId then userId.getD ""
  else generateSecureIdFromEndpoint (endpoint.getD "")

/-- Source `DELETE /api/push/subscribe`: status code and the registry it leaves. -/
def subscribeDELETE (userId endpoint : Option String) (reg : Registry) : Nat × Registry :=
  if !truthyOpt userId && !truthyOpt endpoint then (400, reg)
  else (200, removeSubscription (deleteDerivedId userId endpoint) reg)

/-- Outcome of `POST /api/push/send`: 503 when unconfigured, 400 on a
missing title, 500 when neither id nor endpoint is usable (the JS hash
loop throws on `undefined`), 404 when no subscription is stored under the
derived id, otherwise the push dispatch for the found subscription. -/
inductive SendOutcome where
  | notConfigured
  | missingTitle
  | serverError
  | subNotFound
  | dispatched (sub : PushSub)
deriving DecidableEq

/-- Source `POST /api/push/send`. -/
def sendPOST (configured : Bool) (userId endpoint title : Option String)
    (reg : Registry) : SendOutcome :=
  if !configured then .notConfigured
  else if !truthyOpt title then .missingTitle
  else if truthyOpt userId then
    match reg (userId.getD "") with
    | none => .subNotFound
    | some sub => .dispatched sub
  else
    match endpoint with
    | none => .serverError
    | some e =>
      match reg (generateIdFromEndpoint e) with
      | none => .subNotFound
      | some sub => .dispatched sub

/-! ## `POST /api/analyze`: response parsing

The route extracts verdict / summary / analysis with three regexes:
`/VERDICT:\s*(safe|caution|avoid)/i`,
`/SUMMARY:\s*(.+?)(?=\n\n|ANALYSIS:)/is`,
`/ANALYSIS:\s*([\s\S]+)$/i`.
Each scan below realises the corresponding first-match semantics of the
JavaScript regex engine (leftmost start position; at one position, greedy
`\s*` with backtracking, lazy `.+?`, ordered alternation). -/

/-- The `(safe|caution|avoid)` alternation tried at a position (the three
tokens start with distinct letters, so ordered alternation is simple
prefix testing). -/
def verdictTokenAt (cs : List Char) : Option String :=
  if ciPrefixOf "safe".data cs then some "safe"
  else if ciPrefixOf "caution".data cs then some "caution"
  else if ciPrefixOf "avoid".data cs then some "avoid"
  else none

/-- First-match scan of `/VERDICT:\s*(safe|caution|avoid)/i`: the captured
token, already lower-cased as `verdictMatch[1].toLowerCase()` leaves it. -/
def verdictScan : List Char → Option String
  | [] => none
  | c :: rest =>
    if ciPrefixOf "verdict:".data (c :: rest) then
      match verdictTokenAt (((c :: rest).drop 8).dropWhile isJsWS) with
      | some tok => some tok
      | none => verdictScan rest
    else verdictScan rest

/-- The lookahead `(?=\n\n|ANALYSIS:)` (the `i` flag also applies to the
literal `ANALYSIS:`). -/
def summaryLookahead (cs : List Char) : Bool :=
  (['\n', '\n'] : List Char).isPrefixOf cs || ciPrefixOf "analysis:".data cs

/-- The lazy `(.+?)` before the lookahead: shortest nonempty prefix (the
`s` flag lets `.` match anything) after which the lookahead holds. -/
def summaryLazyCapture : List Char → Option (List Char)
  | [] => none
  | c :: rest =>
    if summaryLookahead rest then some [c]
    else (summaryLazyCapture rest).map (c :: ·)

/-- Greedy `\s*` with backtracking: try consuming `m` whitespace characters,
largest first, until the rest of the pattern matches. -/
def summaryAfterWS (tail : List Char) : Nat → Option (List Char)
  | 0 => summaryLazyCapture tail
  | m + 1 =>
    match summaryLazyCapture (tail.drop (m + 1)) with
    | some cap => some cap
    | none => summaryAfterWS tail m

/-- First-match scan of `/SUMMARY:\s*(.+?)(?=\n\n|ANALYSIS:)/is`: the
captured group. -/
def summaryScan : List Char → Option (List Char)
  | [] => none
  | c :: rest =>
    if ciPrefixOf "summary:".data (c :: rest) then
      match summaryAfterWS ((c :: rest).drop 8) (((c :: rest).drop 8).takeWhile isJsWS).length with
      | some cap => some cap
      | none => summaryScan rest
    else summaryScan rest

/-- First-match scan of `/ANALYSIS:\s*([\s\S]+)$/i`.  At the first
`ANALYSIS:` with a nonempty tail the pattern matches and the capture is
that tail up to backtracking inside its leading whitespace, which the
subsequent `.trim()` erases; the scan returns the whole tail, whose trim
is the same. -/
def analysisScan : List Char → Option (List Char)
  | [] => none
  | c :: rest =>
    if ciPrefixOf "analysis:".data (c :: rest) then
      match (c :: rest).drop 9 with
      | [] => analysisScan rest
      | t :: ts => some (t :: ts)
    else analysisScan rest

/-- Source `{verdict, summary, analysis}` as the analyze route returns it. -/
structure AnalysisResult where
  verdict : String
  summary : String
  analysis : String
deriving DecidableEq, Repr

/-- The response parsing of the analyze route:
`verdictMatch?.[1]?.toLowerCase() || 'caution'`,
`summaryMatch?.[1]?.trim() || 'Analysis complete.'`,
`analysisMatch?.[1]?.trim() || responseText` (the `||` defaults also fire
on an empty trimmed capture, which is falsy). -/
def parseAnalysisResponse (t : String) : AnalysisResult :=
  let verdict := (verdictScan t.data).getD "caution"
  let summary :=
    match summaryScan t.data with
    | some cap => let tr := jsTrim ⟨cap⟩; if tr = "" then "Analysis complete." else tr
    | none => "Analysis complete."
  let analysis :=
    match analysisScan t.data with
    | some cap => let tr := jsTrim ⟨cap⟩; if tr = "" then t else tr
    | none => t
  ⟨verdict, summary, analysis⟩

/-! ## `POST /api/analyze`: input validation -/

/-- An element of the request's image array: a string or some other
JSON value. -/
inductive ImgVal where
  | str (s : String)
  | nonString
deriving DecidableEq

/-- A validated image block as pushed to the upstream request. -/
structure ImageContent where
  mediaType : String
  data : String
deriving DecidableEq

/-- Source `ALLOWED_MEDIA_TYPES`. -/
def ALLOWED_MEDIA_TYPES : List String :=
  ["image/jpeg", "image/png", "image/gif", "image/webp"]

/-- The `;base64,` separator of the data-URL regex. -/
def b64marker : List Char := [';', 'b', 'a', 's', 'e', '6', '4', ',']

/-- All ways to split `cs` as `a ++ ";base64," ++ b`, leftmost `a` first. -/
def b64splits : List Char → List (List Char × List Char)
  | [] => []
  | c :: rest =>
    (if b64marker.isPrefixOf (c :: rest) then [(([] : List Char), (c :: rest).drop 8)] else []) ++
    (b64splits rest).map (fun p => (c :: p.1, p.2))

/-- A line terminator, which `.` never matches (the regex has no `s` flag). -/
def isLineTerm (c : Char) : Bool :=
  c.toNat = 10 || c.toNat = 13 || c.toNat = 8232 || c.toNat = 8233

/-- Source `image.match(/^data:(.+);base64,(.+)$/)`: media type and base64 data.
The anchored pattern consumes every character by `.` or a literal, so any
line terminator kills the match; greedy `(.+)` takes the rightmost
`;base64,` split with both groups nonempty. -/
def matchDataURL (s : String) : Option (String × String) :=
  let cs := s.data
  if cs.any isLineTerm then none
  else if "data:".data.isPrefixOf cs then
    match ((b64splits (cs.drop 5)).filter fun p => !p.1.isEmpty && !p.2.isEmpty).getLast? with
    | some p => some (⟨p.1⟩, ⟨p.2⟩)
    | none => none
  else none

/-- The per-image validation loop of the analyze route, in source order:
string check, size check (`image.length > MAX_IMAGE_SIZE_BYTES * 1.34`,
where `image.length` is the UTF-16 code-unit count and the double value
of the bound lies strictly between 14050918 and 14050919, so for integer
lengths the test is exactly the rational `5 * length > 70254592`),
data-URL match, media-type whitelist; first failure wins. -/
def processImages : List ImgVal → Except String (List ImageContent)
  | [] => .ok []
  | .nonString :: _ => .error "Invalid image format"
  | .str s :: rest =>
    if 70254592 < 5 * (utf16Encode s.data).length then
      .error "One or more images too large. Maximum size is 10MB per image"
    else
      match matchDataURL s with
      | none => .error "Invalid image format"
      | some p =>
        if !(ALLOWED_MEDIA_TYPES.contains p.1) then
          .error "Unsupported image format. Use JPEG, PNG, GIF, or WebP"
        else (processImages rest).map (⟨p.1, p.2⟩ :: ·)

/-- Outcome of the analyze POST handler up to the upstream call. -/
inductive AnalyzeOutcome where
  | rateLimited
  | noImages
  | tooManyImages
  | noApiKey
  | invalidImage (msg : String)
  | upstream (contents : List ImageContent)
deriving DecidableEq

/-- Whether an analyze outcome is one of the 400 client-error responses. -/
def isAnalyze400 : AnalyzeOutcome → Bool
  | .noImages => true
  | .tooManyImages => true
  | .invalidImage _ => true
  | _ => false

/-- Source `POST /api/analyze` up to the upstream call, in source order: rate
limit, empty list, more than `MAX_IMAGES = 4`, missing API key, then the
per-image validation loop. -/
def analyzePOST (rateLimitOk hasKey : Bool) (images : List ImgVal) : AnalyzeOutcome :=
  if !rateLimitOk then .rateLimited
  else if images.length = 0 then .noImages
  else if 4 < images.length then .tooManyImages
  else if !hasKey then .noApiKey
  else
    match processImages images with
    | .error m => .invalidImage m
    | .ok cs => .upstream cs

/-- The conditions under which one image element fails the per-image
checks (order-independent disjunction of the loop's four tests). -/
def badImage : ImgVal → Prop
  | .nonString => True
  | .str s =>
    70254592 < 5 * (utf16Encode s.data).length ∨ matchDataURL s = none ∨
    ∃ mt dat, matchDataURL s = some (mt, dat) ∧ mt ∉ ALLOWED_MEDIA_TYPES

/-! ## `POST /api/meals` -/

/-- Source `ALLOWED_MEAL_TYPES`. -/
def ALLOWED_MEAL_TYPES : List String := ["breakfast", "lunch", "dinner", "snacks"]

/-- Source `String(mealType).toLowerCase().trim()`. -/
def normalizedMealType (mealType : String) : String := jsTrim (jsToLower mealType)

/-- Outcome of the meals POST handler up to the upstream call. -/
inductive MealsOutcome where
  | rateLimited
  | missingMealType
  | invalidMealType
  | noApiKey
  | upstream (mealType : String)
deriving DecidableEq

/-- Whether a meals outcome is one of the 400 client-error responses. -/
def isMeals400 : MealsOutcome → Bool
  | .missingMealType => true
  | .invalidMealType => true
  | _ => false

/-- Source `POST /api/meals` up to the upstream call, in source order: rate
limit, falsy `mealType` (absent or empty string), whitelist check on the
normalized token, missing API key, then the upstream call with the
normalized token interpolated into the prompt. -/
def mealsPOST (rateLimitOk hasKey : Bool) (mealType : Option String) : MealsOutcome :=
  if !rateLimitOk then .rateLimited
  else
    match mealType with
    | none => .missingMealType
    | some s =>
      if s = "" then .missingMealType
      else if !(ALLOWED_MEAL_TYPES.contains (normalizedMealType s)) then .invalidMealType
      else if !hasKey then .noApiKey
      else .upstream (normalizedMealType s)

/-! ## Secure storage (`secure-storage.ts`)

`encrypt` is `btoa(unescape(encodeURIComponent(data)))` — i.e. base64 of
the UTF-8 bytes — then a per-character XOR against the constant key, then
`btoa` again; `decrypt` inverts each layer and returns `''` on any decode
failure.  Byte strings (JS strings of char codes < 256) are embedded as
`List Nat`. -/

/-- The base64 alphabet character of a 6-bit index. -/
def b64chr (n : Nat) : Char :=
  "ABCDEFGHIJKLMNOPQRSTUVWXYZabcdefghijklmnopqrstuvwxyz0123456789+/".data.getD n 'A'

/-- The 6-bit index of a base64 alphabet character (`none` for a
character outside the alphabet, on which `atob` throws). -/
def b64idx (c : Char) : Option Nat :=
  "ABCDEFGHIJKLMNOPQRSTUVWXYZabcdefghijklmnopqrstuvwxyz0123456789+/".data.indexOf? c

/-- Source `btoa`: base64 of a byte list (the bytes the caller feeds it are
< 256; `btoa` throws on larger char codes, which never occurs here). -/
def btoa : List Nat → List Char
  | [] => []
  | [a] => [b64chr (a / 4), b64chr (a % 4 * 16), '=', '=']
  | [a, b] => [b64chr (a / 4), b64chr (a % 4 * 16 + b / 16), b64chr (b % 16 * 4), '=']
  | a :: b :: c :: rest =>
    b64chr (a / 4) :: b64chr (a % 4 * 16 + b / 16) :: b64chr (b % 16 * 4 + c / 64) ::
    b64chr (c % 64) :: btoa rest

/-- Source `atob`: decode base64 back to bytes, `none` where `atob` throws
(a character outside the alphabet, other than trailing padding).  This
models the strictly padded multiple-of-4 form, the only form `btoa`
emits and so the only one `decrypt` ever receives from `encrypt`; the
leniency of `atob` towards unpadded input is never exercised here. -/
def atobD : List Char → Option (List Nat)
  | [] => some []
  | c1 :: c2 :: c3 :: c4 :: rest =>
    if c3 = '=' ∧ c4 = '=' ∧ rest = [] then
      match b64idx c1, b64idx c2 with
      | some a, some b => some [a * 4 + b / 16]
      | _, _ => none
    else if c4 = '=' ∧ rest = [] then
      match b64idx c1, b64idx c2, b64idx c3 with
      | some a, some b, some c => some [a * 4 + b / 16, b % 16 * 16 + c / 4]
      | _, _, _ => none
    else
      match b64idx c1, b64idx c2, b64idx c3, b64idx c4, atobD rest with
      | some a, some b, some c, some d, some bs =>
        some ((a * 4 + b / 16) :: (b % 16 * 16 + c / 4) :: (c % 4 * 64 + d) :: bs)
      | _, _, _, _, _ => none
  | _ => none

/-- The char codes of `ENCRYPTION_KEY = 'transplant-food-secure-v1'`. -/
def keyCodes : List Nat := "transplant-food-secure-v1".data.map Char.toNat

/-- The XOR loop of `encrypt`/`decrypt` from key offset `i`:
`charCode ^ ENCRYPTION_KEY.charCodeAt(i % ENCRYPTION_KEY.length)`. -/
def xorKeyFrom : Nat → List Nat → List Nat
  | _, [] => []
  | i, b :: bs => (b ^^^ keyCodes.getD (i % keyCodes.length) 0) :: xorKeyFrom (i + 1) bs

/-- The XOR layer over a whole byte list. -/
def xorKey (bs : List Nat) : List Nat := xorKeyFrom 0 bs

/-- Decode UTF-8 bytes back to characters
(`decodeURIComponent(escape(...))`), `none` where that throws: stray or
missing continuation bytes, overlong forms, surrogates, out-of-range.
The recursion is fuelled for structural simplicity; every step consumes
at least one byte and one fuel unit, so any `fuel ≥ bs.length`
(as `utf8Decode` passes) gives the unfuelled semantics.  A missing
continuation byte is read as `getD`'s default 0, which fails the
`128 ≤ _ < 192` continuation test exactly as a missing byte must. -/
def utf8DecodeF : Nat → List Nat → Option (List Char)
  | 0, [] => some []
  | 0, _ :: _ => none
  | _ + 1, [] => some []
  | fuel + 1, b :: rest =>
    if b < 128 then (utf8DecodeF fuel rest).map (Char.ofNat b :: ·)
    else if b < 192 then none
    else if b < 224 then
      let b1 := rest.getD 0 0
      if 128 ≤ b1 ∧ b1 < 192 then
        let n := (b - 192) * 64 + (b1 - 128)
        if 128 ≤ n then (utf8DecodeF fuel (rest.drop 1)).map (Char.ofNat n :: ·) else none
      else none
    else if b < 240 then
      let b1 := rest.getD 0 0
      let b2 := rest.getD 1 0
      if (128 ≤ b1 ∧ b1 < 192) ∧ (128 ≤ b2 ∧ b2 < 192) then
        let n := (b - 224) * 4096 + (b1 - 128) * 64 + (b2 - 128)
        if 2048 ≤ n ∧ (n < 55296 ∨ 57343 < n) then
          (utf8DecodeF fuel (rest.drop 2)).map (Char.ofNat n :: ·)
        else none
      else none
    else if b < 248 then
      let b1 := rest.getD 0 0
      let b2 := rest.getD 1 0
      let b3 := rest.getD 2 0
      if (128 ≤ b1 ∧ b1 < 192) ∧ (128 ≤ b2 ∧ b2 < 192) ∧ (128 ≤ b3 ∧ b3 < 192) then
        let n := (b - 240) * 262144 + (b1 - 128) * 4096 + (b2 - 128) * 64 + (b3 - 128)
        if 65536 ≤ n ∧ n < 1114112 then
          (utf8DecodeF fuel (rest.drop 3)).map (Char.ofNat n :: ·)
        else none
      else none
    else none

/-- UTF-8 decoding of a byte list (see `utf8DecodeF`). -/
def utf8Decode (bs : List Nat) : Option (List Char) := utf8DecodeF bs.length bs

/-- Source `encrypt(data)` of `secure-storage.ts`. -/
def encrypt (s : String) : String :=
  ⟨btoa (xorKey ((btoa (utf8Encode s.data)).map Char.toNat))⟩

/-- Source `decrypt(data)` of `secure-storage.ts` (returns `''` on failure). -/
def decrypt (s : String) : String :=
  match atobD s.data with
  | none => ""
  | some codes =>
    match atobD ((xorKey codes).map Char.ofNat) with
    | none => ""
    | some bytes =>
      match utf8Decode bytes with
      | some cs => ⟨cs⟩
      | none => ""

/-- The browser's `localStorage`, keyed strings to strings. -/
def LocalStorage : Type := String → Option String

/-- Source `localStorage.setItem`. -/
def setItem (key value : String) (st : LocalStorage) : LocalStorage :=
  fun k => if k = key then some value else st k

/-- Source `secureSet(key, value)`: store `encrypt(JSON.stringify(value))`; the
serializer is passed explicitly (`stringify`). -/
def secureSet {α : Type} (stringify : α → String) (key : String) (value : α)
    (st : LocalStorage) : LocalStorage :=
  setItem key (encrypt (stringify value)) st

/-- Source `secureGet(key, defaultValue)`: read, decrypt, parse; an absent or
empty item yields the default, an empty decryption falls back to parsing
the raw item, and a parse failure (JSON.parse throwing) yields the
default.  The parser is passed explicitly (`parse`, `none` = throw). -/
def secureGet {α : Type} (parse : String → Option α) (key : String) (dflt : α)
    (st : LocalStorage) : α :=
  match st key with
  | none => dflt
  | some enc =>
    if enc = "" then dflt
    else
      let dec := decrypt enc
      if dec = "" then
        match parse enc with
        | some v => v
        | none => dflt
      else
        match parse dec with
        | some v => v
        | none => dflt

/-! ## Theorems -/

/-- C1: single-call contract of `checkRateLimit`: a missing or expired
entry installs `{count: 1, resetTime: now + windowMs}` and permits with
`remaining = maxRequests - 1`; a live entry at or over `maxRequests`
denies with `remaining = 0` and the entry's `resetTime`, leaving the
store unchanged; otherwise the count is incremented and the call permits
with `remaining = maxRequests - count` for the incremented count. -/
theorem C1_checkRateLimit_single_call (now : Int) (id : String)
    (cfg : RateLimitConfig) (store : RLStore) :
    ((store id = none ∨ ∃ e, store id = some e ∧ e.resetTime < now) →
      checkRateLimit now id cfg store =
        (⟨true, cfg.maxRequests - 1, now + cfg.windowMs⟩,
         fun k => if k = id then some ⟨1, now + cfg.windowMs⟩ else store k)) ∧
    (∀ e, store id = some e → ¬e.resetTime < now → cfg.maxRequests ≤ e.count →
      checkRateLimit now id cfg store = (⟨false, 0, e.resetTime⟩, store)) ∧
    (∀ e, store id = some e → ¬e.resetTime < now → e.count < cfg.maxRequests →
      checkRateLimit now id cfg store =
        (⟨true, cfg.maxRequests - (e.count + 1), e.resetTime⟩,
         fun k => if k = id then some ⟨e.count + 1, e.resetTime⟩ else store k)) := by
  refine ⟨?_, ?_, ?_⟩
  · rintro (h | ⟨e, he, hlt⟩) <;> simp [checkRateLimit, *]
  · intro e he hnlt hge
    simp [checkRateLimit, he, hnlt, hge]
  · intro e he hnlt hlt
    simp [checkRateLimit, he, hnlt, not_le.mpr hlt]

/-- The verdict alternation only ever captures one of the three tokens. -/
theorem verdictTokenAt_mem (cs : List Char) (tok : String)
    (h : verdictTokenAt cs = some tok) : tok ∈ ["safe", "caution", "avoid"] := by
  unfold verdictTokenAt at h
  split_ifs at h <;> simp_all

/-- The verdict scan only ever captures one of the three tokens. -/
theorem verdictScan_mem : ∀ (cs : List Char) (tok : String),
    verdictScan cs = some tok → tok ∈ ["safe", "caution", "avoid"] := by
  intro cs
  induction cs with
  | nil => intro tok h; cases h
  | cons c rest ih =>
    intro tok h
    unfold verdictScan at h
    split_ifs at h with hpre
    · cases hm : verdictTokenAt (((c :: rest).drop 8).dropWhile isJsWS) with
      | some t =>
        rw [hm] at h
        cases h
        exact verdictTokenAt_mem _ _ hm
      | none =>
        rw [hm] at h
        exact ih tok h
    · exact ih tok h

/-- C4: the analyze response parser extracts the lower-cased verdict
token (always one of safe/caution/avoid), the trimmed summary between
`SUMMARY:` and the first blank line or `ANALYSIS:`, and the trimmed text
after `ANALYSIS:`; it defaults the verdict to `caution`, the summary to
`Analysis complete.` and the analysis to the raw text when the respective
section is absent; on the canonical example it yields exactly `avoid`,
`text`, `body`. -/
theorem C4_parseAnalysisResponse :
    (∀ t : String, (parseAnalysisResponse t).verdict ∈ ["safe", "caution", "avoid"]) ∧
    (∀ t : String, verdictScan t.data = none →
      (parseAnalysisResponse t).verdict = "caution") ∧
    parseAnalysisResponse "VERDICT: avoid\n\nSUMMARY: text\n\nANALYSIS:\nbody" =
      ⟨"avoid", "text", "body"⟩ ∧
    parseAnalysisResponse "VERDICT: SAFE\n\nSUMMARY:   ok  \n\nANALYSIS:\n  fine  " =
      ⟨"safe", "ok", "fine"⟩ ∧
    (parseAnalysisResponse "SUMMARY: s\n\nANALYSIS:\nb").verdict = "caution" ∧
    parseAnalysisResponse "no structure at all" =
      ⟨"caution", "Analysis complete.", "no structure at all"⟩ := by
  refine ⟨?_, ?_, by decide, by decide, by decide, by decide⟩
  · intro t
    show (verdictScan t.data).getD "caution" ∈ _
    cases hv : verdictScan t.data with
    | some tok => exact verdictScan_mem t.data tok hv
    | none => simp
  · intro t hnone
    show (verdictScan t.data).getD "caution" = "caution"
    rw [hnone]
    rfl

/-- C6: the meals handler accepts exactly the lowercased-and-trimmed meal
types of the whitelist, rejects everything else with 400, accepts
`"BREAKFAST "` as `breakfast` and rejects `"dessert"`. -/
theorem C6_mealType_whitelist :
    (∀ s : String, mealsPOST true true (some s) = .upstream (normalizedMealType s) ↔
       normalizedMealType s ∈ ALLOWED_MEAL_TYPES) ∧
    (∀ s : String, isMeals400 (mealsPOST true true (some s)) = true ↔
       normalizedMealType s ∉ ALLOWED_MEAL_TYPES) ∧
    normalizedMealType "BREAKFAST " = "breakfast" ∧
    mealsPOST true true (some "BREAKFAST ") = .upstream "breakfast" ∧
    isMeals400 (mealsPOST true true (some "dessert")) = true := by
  have hcont : ∀ s : String,
      ALLOWED_MEAL_TYPES.contains (normalizedMealType s) = true ↔
        normalizedMealType s ∈ ALLOWED_MEAL_TYPES := by
    intro s
    exact List.elem_iff
  refine ⟨?_, ?_, by decide, by decide, by decide⟩
  · intro s
    by_cases hs : s = ""
    · subst hs
      constructor
      · intro h
        simp [mealsPOST] at h
      · intro h
        have : normalizedMealType "" = "" := by decide
        rw [this] at h
        simp [ALLOWED_MEAL_TYPES] at h
    · by_cases hmem : normalizedMealType s ∈ ALLOWED_MEAL_TYPES
      · simp [mealsPOST, hs, (hcont s).mpr hmem, hmem]
      · have : ALLOWED_MEAL_TYPES.contains (normalizedMealType s) = false := by
          rw [← Bool.not_eq_true]
          exact fun h => hmem ((hcont s).mp h)
        simp [mealsPOST, hs, this, hmem]
  · intro s
    by_cases hs : s = ""
    · subst hs
      have : normalizedMealType "" = "" := by decide
      simp [mealsPOST, isMeals400, this, ALLOWED_MEAL_TYPES]
    · by_cases hmem : normalizedMealType s ∈ ALLOWED_MEAL_TYPES
      · simp [mealsPOST, hs, (hcont s).mpr hmem, hmem, isMeals400]
      · have : ALLOWED_MEAL_TYPES.contains (normalizedMealType s) = false := by
          rw [← Bool.not_eq_true]
          exact fun h => hmem ((hcont s).mp h)
        simp [mealsPOST, hs, this, hmem, isMeals400]

/-- Unfolding equation for `runSeq` on a cons. -/
theorem runSeq_cons (id : String) (cfg : RateLimitConfig) (t : Int) (ts : List Int)
    (s : RLStore) :
    runSeq id cfg (t :: ts) s =
      ((checkRateLimit t id cfg s).1 :: (runSeq id cfg ts (checkRateLimit t id cfg s).2).1,
       (runSeq id cfg ts (checkRateLimit t id cfg s).2).2) := rfl

/-- Calls on a live entry `⟨c, R⟩` at times within its window all succeed,
counting up from `c`; the entry ends at `c` plus the number of calls. -/
theorem runSeq_live (id : String) (cfg : RateLimitConfig) :
    ∀ (ts : List Int) (s : RLStore) (c R : Int),
      s id = some ⟨c, R⟩ → (∀ t ∈ ts, ¬R < t) → c + ts.length ≤ cfg.maxRequests →
      (runSeq id cfg ts s).1 =
        (List.range ts.length).map
          (fun k => ⟨true, cfg.maxRequests - (c + (k : Int) + 1), R⟩) ∧
      (runSeq id cfg ts s).2 id = some ⟨c + ts.length, R⟩ := by
  intro ts
  induction ts with
  | nil => intro s c R hs _ _; simp [runSeq, hs]
  | cons t ts ih =>
    intro s c R hs hts hlen
    have hnl : ¬R < t := hts t (List.mem_cons_self t ts)
    have hnle : ¬cfg.maxRequests ≤ c := by
      simp only [List.length_cons] at hlen
      push_cast at hlen
      omega
    have hcall : checkRateLimit t id cfg s =
        (⟨true, cfg.maxRequests - (c + 1), R⟩,
         fun k => if k = id then some ⟨c + 1, R⟩ else s k) := by
      simp [checkRateLimit, hs, hnl, hnle]
    obtain ⟨ih1, ih2⟩ := ih (fun k => if k = id then some ⟨c + 1, R⟩ else s k) (c + 1) R
      (by simp) (fun u hu => hts u (List.mem_cons_of_mem _ hu))
      (by simp only [List.length_cons] at hlen; push_cast at hlen ⊢; omega)
    constructor
    · rw [runSeq_cons, hcall]
      simp only []
      rw [ih1, List.length_cons, List.range_succ_eq_map, List.map_cons, List.map_map]
      refine congrArg₂ List.cons ?_ ?_
      · simp
      · refine List.map_congr_left fun k _ => ?_
        simp only [Function.comp_apply]
        congr 1
        push_cast
        ring
    · rw [runSeq_cons, hcall]
      simp only []
      rw [ih2]
      congr 2
      simp only [List.length_cons]
      push_cast
      ring

/-- C2: starting from no entry, a call at `t0` and up to `maxRequests - 1`
further calls at times strictly before `t0 + windowMs` all succeed with
`remaining` stepping down `maxRequests - 1, maxRequests - 2, ...`; when
the window's budget is exhausted the next in-window call is denied; and
any call strictly after the reset time succeeds with
`remaining = maxRequests - 1`, opening a fresh window. -/
theorem C2_window_sequence (cfg : RateLimitConfig) (id : String) (t0 : Int)
    (ts : List Int) (store : RLStore)
    (hmax : 1 ≤ cfg.maxRequests)
    (h0 : store id = none)
    (hts : ∀ t ∈ ts, t < t0 + cfg.windowMs)
    (hlen : (ts.length : Int) + 1 ≤ cfg.maxRequests) :
    (runSeq id cfg (t0 :: ts) store).1 =
      (List.range (ts.length + 1)).map
        (fun k => ⟨true, cfg.maxRequests - ((k : Int) + 1), t0 + cfg.windowMs⟩) ∧
    ((ts.length : Int) + 1 = cfg.maxRequests →
      ∀ t : Int, t ≤ t0 + cfg.windowMs →
        (checkRateLimit t id cfg (runSeq id cfg (t0 :: ts) store).2).1 =
          ⟨false, 0, t0 + cfg.windowMs⟩) ∧
    (∀ t : Int, t0 + cfg.windowMs < t →
      (checkRateLimit t id cfg (runSeq id cfg (t0 :: ts) store).2).1 =
        ⟨true, cfg.maxRequests - 1, t + cfg.windowMs⟩) := by
  have hfresh : checkRateLimit t0 id cfg store =
      (⟨true, cfg.maxRequests - 1, t0 + cfg.windowMs⟩,
       fun k => if k = id then some ⟨1, t0 + cfg.windowMs⟩ else store k) := by
    simp [checkRateLimit, h0]
  obtain ⟨ih1, ih2⟩ := runSeq_live id cfg ts
    (fun k => if k = id then some ⟨1, t0 + cfg.windowMs⟩ else store k) 1 (t0 + cfg.windowMs)
    (by simp) (fun u hu => by have := hts u hu; omega) (by omega)
  have hend : (runSeq id cfg (t0 :: ts) store).2 id = some ⟨1 + ts.length, t0 + cfg.windowMs⟩ := by
    rw [runSeq_cons, hfresh]
    exact ih2
  refine ⟨?_, ?_, ?_⟩
  · rw [runSeq_cons, hfresh]
    simp only []
    rw [ih1, List.range_succ_eq_map, List.map_cons, List.map_map]
    refine congrArg₂ List.cons ?_ ?_
    · simp
    · refine List.map_congr_left fun k _ => ?_
      simp only [Function.comp_apply]
      congr 1
      push_cast
      ring
  · intro hn t ht
    have hcnt : cfg.maxRequests ≤ 1 + (ts.length : Int) := by omega
    simp [checkRateLimit, hend, not_lt.mpr ht, hcnt]
  · intro t ht
    simp [checkRateLimit, hend, ht]

/-- Witness for C2 at `maxRequests = 2`, `windowMs = 100`, calls at
times 0 and 10, a denied third call at 50 and a fresh window at 150. -/
theorem C2_window_sequence_witness :
    (runSeq "a" ⟨2, 100⟩ [0, 10] emptyRLStore).1 =
      [⟨true, 1, 100⟩, ⟨true, 0, 100⟩] ∧
    (checkRateLimit 50 "a" ⟨2, 100⟩ (runSeq "a" ⟨2, 100⟩ [0, 10] emptyRLStore).2).1 =
      ⟨false, 0, 100⟩ ∧
    (checkRateLimit 150 "a" ⟨2, 100⟩ (runSeq "a" ⟨2, 100⟩ [0, 10] emptyRLStore).2).1 =
      ⟨true, 1, 250⟩ := by
  obtain ⟨h1, h2, h3⟩ := C2_window_sequence ⟨2, 100⟩ "a" 0 [10] emptyRLStore
    (by norm_num) rfl (by intro t ht; simp at ht; subst ht; decide) (by norm_num)
  refine ⟨?_, ?_, ?_⟩
  · rw [h1]; decide
  · simpa using h2 (by norm_num) 50 (by norm_num)
  · simpa using h3 150 (by norm_num)

/-- One `checkRateLimit` call preserves the store's count invariant and,
for a nonnegative window, returns a nonnegative `remaining` and a
`resetTime` at or after the call time. -/
theorem checkRateLimit_preserves (cfgOf : String → RateLimitConfig) (now : Int)
    (id : String) (s : RLStore)
    (hcfg : ∀ i, 1 ≤ (cfgOf i).maxRequests ∧ 0 ≤ (cfgOf i).windowMs)
    (hinv : ∀ k e, s k = some e → 1 ≤ e.count ∧ e.count ≤ (cfgOf k).maxRequests) :
    (∀ k e, (checkRateLimit now id (cfgOf id) s).2 k = some e →
       1 ≤ e.count ∧ e.count ≤ (cfgOf k).maxRequests) ∧
    0 ≤ (checkRateLimit now id (cfgOf id) s).1.remaining ∧
    now ≤ (checkRateLimit now id (cfgOf id) s).1.resetTime := by
  obtain ⟨hmax, hwin⟩ := hcfg id
  have hupd : ∀ c R, 1 ≤ c → c ≤ (cfgOf id).maxRequests →
      ∀ k e, (fun k => if k = id then some ⟨c, R⟩ else s k) k = some e →
        1 ≤ e.count ∧ e.count ≤ (cfgOf k).maxRequests := by
    intro c R h1 h2 k e he
    by_cases hk : k = id
    · subst hk
      simp only [if_pos rfl] at he
      cases he
      exact ⟨h1, h2⟩
    · simp only [if_neg hk] at he
      exact hinv k e he
  rcases hs : s id with _ | e
  · have heq : checkRateLimit now id (cfgOf id) s =
        (⟨true, (cfgOf id).maxRequests - 1, now + (cfgOf id).windowMs⟩,
         fun k => if k = id then some ⟨1, now + (cfgOf id).windowMs⟩ else s k) := by
      simp [checkRateLimit, hs]
    rw [heq]
    exact ⟨hupd 1 (now + (cfgOf id).windowMs) le_rfl hmax, by simp; omega, by simp; omega⟩
  · by_cases hexp : e.resetTime < now
    · have heq : checkRateLimit now id (cfgOf id) s =
          (⟨true, (cfgOf id).maxRequests - 1, now + (cfgOf id).windowMs⟩,
           fun k => if k = id then some ⟨1, now + (cfgOf id).windowMs⟩ else s k) := by
        simp [checkRateLimit, hs, hexp]
      rw [heq]
      exact ⟨hupd 1 (now + (cfgOf id).windowMs) le_rfl hmax, by simp; omega, by simp; omega⟩
    · by_cases hfull : (cfgOf id).maxRequests ≤ e.count
      · have heq : checkRateLimit now id (cfgOf id) s =
            (⟨false, 0, e.resetTime⟩, s) := by
          simp [checkRateLimit, hs, hexp, hfull]
        rw [heq]
        exact ⟨hinv, by simp, by simp; omega⟩
      · have h1 : 1 ≤ e.count := (hinv id e hs).1
        have heq : checkRateLimit now id (cfgOf id) s =
            (⟨true, (cfgOf id).maxRequests - (e.count + 1), e.resetTime⟩,
             fun k => if k = id then some ⟨e.count + 1, e.resetTime⟩ else s k) := by
          simp [checkRateLimit, hs, hexp, hfull]
        rw [heq]
        exact ⟨hupd (e.count + 1) e.resetTime (by omega) (by omega),
          by simp; omega, by simp; omega⟩

/-- The cleanup sweep only deletes entries, so it preserves the count
invariant. -/
theorem cleanupSweep_preserves (cfgOf : String → RateLimitConfig) (now : Int) (s : RLStore)
    (hinv : ∀ k e, s k = some e → 1 ≤ e.count ∧ e.count ≤ (cfgOf k).maxRequests) :
    ∀ k e, cleanupSweep now s k = some e → 1 ≤ e.count ∧ e.count ≤ (cfgOf k).maxRequests := by
  intro k e he
  rcases hs : s k with _ | e'
  · simp [cleanupSweep, hs] at he
  · simp only [cleanupSweep, hs] at he
    by_cases hexp : e'.resetTime < now
    · simp [hexp] at he
    · simp only [if_neg hexp, Option.some.injEq] at he
      subst he
      exact hinv k e' hs

/-- Trace invariant behind C8: from an invariant store, any sequence of
calls and sweeps keeps every entry's count in `[1, maxRequests]` and
every produced result has `remaining ≥ 0` and `resetTime` at or after the
call's time, provided each identifier's fixed config has
`maxRequests ≥ 1` and `windowMs ≥ 0`. -/
theorem runTrace_inv (cfgOf : String → RateLimitConfig)
    (hcfg : ∀ i, 1 ≤ (cfgOf i).maxRequests ∧ 0 ≤ (cfgOf i).windowMs) :
    ∀ (tr : List RLEvent) (s : RLStore),
      (∀ k e, s k = some e → 1 ≤ e.count ∧ e.count ≤ (cfgOf k).maxRequests) →
      (∀ k e, (runTrace cfgOf tr s).1 k = some e →
         1 ≤ e.count ∧ e.count ≤ (cfgOf k).maxRequests) ∧
      (∀ p ∈ (runTrace cfgOf tr s).2, 0 ≤ p.2.remaining ∧ p.1 ≤ p.2.resetTime) := by
  intro tr
  induction tr with
  | nil => intro s hinv; exact ⟨hinv, by simp [runTrace]⟩
  | cons ev tr ih =>
    intro s hinv
    cases ev with
    | call now id =>
      obtain ⟨hstep, hrem, hrt⟩ := checkRateLimit_preserves cfgOf now id s hcfg hinv
      obtain ⟨ih1, ih2⟩ := ih (checkRateLimit now id (cfgOf id) s).2 hstep
      refine ⟨ih1, ?_⟩
      intro p hp
      simp only [runTrace, List.mem_cons] at hp
      rcases hp with hp | hp
      · subst hp
        exact ⟨hrem, hrt⟩
      · exact ih2 p hp
    | sweep now =>
      have hstep := cleanupSweep_preserves cfgOf now s hinv
      obtain ⟨ih1, ih2⟩ := ih (cleanupSweep now s) hstep
      exact ⟨ih1, fun p hp => ih2 p hp⟩

/-- C8 counterexample: the claim as stated does not constrain `windowMs`.
With the config `{maxRequests := 1, windowMs := -5}` (which satisfies the
claim's only hypothesis `maxRequests ≥ 1`), a single call at time 100
returns `resetTime = 95`, violating `resetTime ≥ the time of the call`. -/
theorem C8_counterexample :
    (1 : Int) ≤ (⟨1, -5⟩ : RateLimitConfig).maxRequests ∧
    (runTrace (fun _ => ⟨1, -5⟩) [RLEvent.call 100 "a"] emptyRLStore).2 =
      [(100, ⟨true, 0, 95⟩)] ∧
    ¬((100 : Int) ≤ (95 : Int)) := by decide

/-- C8 (amended with `windowMs ≥ 0`, which the counterexample forces):
provided every call for a given identifier uses that identifier's fixed
config with `maxRequests ≥ 1` and `windowMs ≥ 0`, after any sequence of
calls and sweeps from the empty store every stored entry satisfies
`1 ≤ count ≤ maxRequests`, and every returned result satisfies
`remaining ≥ 0` and `resetTime ≥ the time of the call`. -/
theorem C8_store_invariant (cfgOf : String → RateLimitConfig)
    (hcfg : ∀ i, 1 ≤ (cfgOf i).maxRequests ∧ 0 ≤ (cfgOf i).windowMs)
    (tr : List RLEvent) :
    (∀ k e, (runTrace cfgOf tr emptyRLStore).1 k = some e →
       1 ≤ e.count ∧ e.count ≤ (cfgOf k).maxRequests) ∧
    (∀ p ∈ (runTrace cfgOf tr emptyRLStore).2, 0 ≤ p.2.remaining ∧ p.1 ≤ p.2.resetTime) :=
  runTrace_inv cfgOf hcfg tr emptyRLStore (by intro k e h; simp [emptyRLStore] at h)

/-- Witness for C8 on a concrete trace of three calls and a sweep with
config `{maxRequests := 2, windowMs := 100}`. -/
theorem C8_store_invariant_witness :
    (∀ k e, (runTrace (fun _ => (⟨2, 100⟩ : RateLimitConfig))
        [RLEvent.call 0 "a", RLEvent.call 10 "a", RLEvent.sweep 500, RLEvent.call 600 "a"]
        emptyRLStore).1 k = some e → 1 ≤ e.count ∧ e.count ≤ (2 : Int)) ∧
    (∀ p ∈ (runTrace (fun _ => (⟨2, 100⟩ : RateLimitConfig))
        [RLEvent.call 0 "a", RLEvent.call 10 "a", RLEvent.sweep 500, RLEvent.call 600 "a"]
        emptyRLStore).2, 0 ≤ p.2.remaining ∧ p.1 ≤ p.2.resetTime) :=
  C8_store_invariant (fun _ => (⟨2, 100⟩ : RateLimitConfig))
    (fun _ => ⟨by norm_num, by norm_num⟩)
    [RLEvent.call 0 "a", RLEvent.call 10 "a", RLEvent.sweep 500, RLEvent.call 600 "a"]

/-- A subscription that passes validation has an endpoint starting with
`https://` (in particular a nonempty one) and a keys object. -/
theorem validatePushSubscription_valid (sub : PushSub)
    (hval : (validatePushSubscription sub).valid = true) :
    "https://".data.isPrefixOf sub.endpoint.data = true ∧ sub.hasKeys = true := by
  by_cases h1 : "https://".data.isPrefixOf sub.endpoint.data
  · by_cases h2 : sub.hasKeys
    · exact ⟨h1, h2⟩
    · simp [validatePushSubscription, h1, h2] at hval
  · simp [validatePushSubscription, h1] at hval

/-- C7: the subscribe route's id derivation is a pure function of the
endpoint: a first and a second subscribe without explicit `userId` both
store under `user_` + SHA-256-prefix of the endpoint and leave the very
same registry, and the DELETE handler with that endpoint derives the same
id, so it removes the stored entry while touching no other key. -/
theorem C7_subscribe_id_idempotent (sub : PushSub) (reg : Registry)
    (hval : (validatePushSubscription sub).valid = true) :
    (subscribePOST true (some sub) none reg).2 =
      saveSubscription (generateSecureIdFromEndpoint sub.endpoint) sub reg ∧
    (subscribePOST true (some sub) none (subscribePOST true (some sub) none reg).2).2 =
      saveSubscription (generateSecureIdFromEndpoint sub.endpoint) sub reg ∧
    (subscribeDELETE none (some sub.endpoint) (subscribePOST true (some sub) none reg).2).1 =
      200 ∧
    getSubscription (generateSecureIdFromEndpoint sub.endpoint)
      (subscribeDELETE none (some sub.endpoint) (subscribePOST true (some sub) none reg).2).2 =
      none ∧
    (∀ k, k ≠ generateSecureIdFromEndpoint sub.endpoint →
      (subscribeDELETE none (some sub.endpoint)
        (subscribePOST true (some sub) none reg).2).2 k = reg k) := by
  obtain ⟨hpre, _⟩ := validatePushSubscription_valid sub hval
  have hne : ¬sub.endpoint = "" := by
    intro h
    rw [h] at hpre
    simp at hpre
  have h1 : ∀ r : Registry, subscribePOST true (some sub) none r =
      (200, saveSubscription (generateSecureIdFromEndpoint sub.endpoint) sub r) := by
    intro r
    simp [subscribePOST, hval]
  have hsave2 : saveSubscription (generateSecureIdFromEndpoint sub.endpoint) sub
      (saveSubscription (generateSecureIdFromEndpoint sub.endpoint) sub reg) =
      saveSubscription (generateSecureIdFromEndpoint sub.endpoint) sub reg := by
    funext k
    by_cases hk : k = generateSecureIdFromEndpoint sub.endpoint <;> simp [saveSubscription, hk]
  have hdel : subscribeDELETE none (some sub.endpoint)
      (subscribePOST true (some sub) none reg).2 =
      (200, removeSubscription (generateSecureIdFromEndpoint sub.endpoint)
        (subscribePOST true (some sub) none reg).2) := by
    simp [subscribeDELETE, truthyOpt, hne, deleteDerivedId]
  refine ⟨by rw [h1], ?_, ?_, ?_, ?_⟩
  · rw [h1, h1]
    simp [hsave2]
  · rw [hdel]
  · rw [hdel, h1]
    simp [getSubscription, removeSubscription]
  · intro k hk
    rw [hdel, h1]
    simp [removeSubscription, saveSubscription, hk]

/-- Witness for C7 at the endpoint `https://example.com/ep` on the empty
registry. -/
theorem C7_subscribe_id_idempotent_witness :
    (validatePushSubscription ⟨"https://example.com/ep", true⟩).valid = true ∧
    getSubscription (generateSecureIdFromEndpoint "https://example.com/ep")
      (subscribeDELETE none (some "https://example.com/ep")
        (subscribePOST true (some ⟨"https://example.com/ep", true⟩) none
          emptyRegistry).2).2 = none := by
  have h := C7_subscribe_id_idempotent ⟨"https://example.com/ep", true⟩ emptyRegistry
    (by decide)
  exact ⟨by decide, h.2.2.2.1⟩

/-- C10: a DELETE with a valid body (a truthy `userId` or endpoint)
always answers 200, and when nothing is stored under the derived id the
registry is left exactly as it was; only the send route answers 404 for a
missing subscription (shown for both of its lookup paths). -/
theorem C10_delete_idempotent (userId endpoint : Option String) (reg : Registry)
    (hvalid : truthyOpt userId = true ∨ truthyOpt endpoint = true) :
    (subscribeDELETE userId endpoint reg).1 = 200 ∧
    (reg (deleteDerivedId userId endpoint) = none →
      (subscribeDELETE userId endpoint reg).2 = reg) ∧
    (∀ (uid title : Option String) (reg2 : Registry),
      truthyOpt title = true → truthyOpt uid = true → reg2 (uid.getD "") = none →
      sendPOST true uid none title reg2 = SendOutcome.subNotFound) ∧
    (∀ (e : String) (title : Option String) (reg2 : Registry),
      truthyOpt title = true → reg2 (generateIdFromEndpoint e) = none →
      sendPOST true none (some e) title reg2 = SendOutcome.subNotFound) := by
  have hguard : (!truthyOpt userId && !truthyOpt endpoint) = false := by
    rcases hvalid with h | h <;> simp [h]
  refine ⟨?_, ?_, ?_, ?_⟩
  · simp [subscribeDELETE, hguard]
  · intro hnone
    simp only [subscribeDELETE, hguard, Bool.false_eq_true, if_false]
    funext k
    by_cases hk : k = deleteDerivedId userId endpoint
    · subst hk
      simp [removeSubscription, hnone]
    · simp [removeSubscription, hk]
  · intro uid title reg2 htitle huid hnone
    simp [sendPOST, htitle, huid, hnone]
  · intro e title reg2 htitle hnone
    simp [sendPOST, htitle, show truthyOpt none = false from rfl, hnone]

/-- Witness for C10: deleting the never-stored id `u1` answers 200 and
leaves the registry untouched; sending to the missing id `u1` is 404. -/
theorem C10_delete_idempotent_witness :
    (subscribeDELETE (some "u1") none emptyRegistry).1 = 200 ∧
    (subscribeDELETE (some "u1") none emptyRegistry).2 = emptyRegistry ∧
    sendPOST true (some "u1") none (some "Reminder") emptyRegistry =
      SendOutcome.subNotFound := by
  obtain ⟨h1, h2, h3, _⟩ := C10_delete_idempotent (some "u1") none emptyRegistry
    (Or.inl (by decide))
  exact ⟨h1, h2 rfl, h3 (some "u1") (some "Reminder") emptyRegistry (by decide) (by decide) rfl⟩

set_option maxRecDepth 100000

/-- SHA-256 sanity check of the embedding against the FIPS 180-4 test
vector for the empty message. -/
theorem sha256Hex_empty :
    sha256Hex "" = "e3b0c44298fc1c149afbf4c8996fb92427ae41e4649b934ca495991b7852b855" := by
  decide

/-- SHA-256 sanity check of the embedding against the FIPS 180-4 test
vector for `abc`. -/
theorem sha256Hex_abc :
    sha256Hex "abc" = "ba7816bf8f01cfea414140de5dae2223b00361a396177a9cb410ff61f20015ad" := by
  decide

/-- C3: the three handlers do NOT derive the same id.  At the concrete
endpoint below, subscribing without a `userId` stores the subscription
under the SHA-256-derived id of the subscribe route, but
`POST /api/push/send` given only that endpoint derives a different id
(`user_` + `Math.abs` of a 32-bit accumulator hash), finds no
subscription, and answers 404 instead of locating the stored one. -/
theorem C3_send_id_mismatch :
    generateSecureIdFromEndpoint "https://fcm.googleapis.com/fcm/send/abc123" =
      "user_d395ac524dac9139" ∧
    generateIdFromEndpoint "https://fcm.googleapis.com/fcm/send/abc123" =
      "user_570511621" ∧
    (subscribePOST true (some ⟨"https://fcm.googleapis.com/fcm/send/abc123", true⟩) none
        emptyRegistry).1 = 200 ∧
    sendPOST true none (some "https://fcm.googleapis.com/fcm/send/abc123")
      (some "Medication Reminder")
      (subscribePOST true (some ⟨"https://fcm.googleapis.com/fcm/send/abc123", true⟩) none
        emptyRegistry).2 = SendOutcome.subNotFound := by
  decide

/-- Every split produced by `b64splits` reassembles to the input. -/
theorem b64splits_sound : ∀ (cs : List Char), ∀ p ∈ b64splits cs, p.1 ++ b64marker ++ p.2 = cs := by
  intro cs
  induction cs with
  | nil => intro p hp; simp [b64splits] at hp
  | cons c rest ih =>
    intro p hp
    simp only [b64splits, List.mem_append] at hp
    rcases hp with hp | hp
    · by_cases hpre : b64marker.isPrefixOf (c :: rest) = true
      · rw [if_pos hpre] at hp
        simp only [List.mem_singleton] at hp
        subst hp
        simp only [List.nil_append]
        obtain ⟨t, ht⟩ := List.isPrefixOf_iff_prefix.mp hpre
        rw [← ht, List.drop_left' (by decide)]
      · rw [if_neg hpre] at hp
        simp at hp
    · simp only [List.mem_map] at hp
      obtain ⟨q, hq, rfl⟩ := hp
      have hsnd := ih q hq
      simp only [List.cons_append]
      rw [hsnd]

/-- A successful data-URL match splits the text after `data:` at a
`;base64,` separator into the captured media type and data. -/
theorem matchDataURL_sound (s mt dat : String) (h : matchDataURL s = some (mt, dat)) :
    mt.data ++ b64marker ++ dat.data = s.data.drop 5 := by
  unfold matchDataURL at h
  by_cases h1 : s.data.any isLineTerm = true
  · rw [if_pos h1] at h
    cases h
  · rw [if_neg h1] at h
    by_cases h2 : "data:".data.isPrefixOf s.data = true
    · rw [if_pos h2] at h
      cases hg : ((b64splits (s.data.drop 5)).filter fun p => !p.1.isEmpty && !p.2.isEmpty).getLast? with
      | none => rw [hg] at h; cases h
      | some q =>
        rw [hg] at h
        simp only [Option.some.injEq, Prod.mk.injEq] at h
        obtain ⟨hmt, hdat⟩ := h
        subst hmt
        subst hdat
        exact b64splits_sound _ q
          (List.mem_of_mem_filter (List.mem_of_getLast?_eq_some hg))
    · rw [if_neg h2] at h
      cases h

/-- The per-image loop fails exactly when some element of the list fails
one of the four per-image checks. -/
theorem processImages_error_iff : ∀ imgs : List ImgVal,
    (∃ m, processImages imgs = Except.error m) ↔ ∃ v ∈ imgs, badImage v := by
  intro imgs
  induction imgs with
  | nil =>
    constructor
    · intro ⟨m, hm⟩; cases hm
    · intro ⟨v, hv, _⟩; cases hv
  | cons v rest ih =>
    cases v with
    | nonString =>
      refine iff_of_true ⟨"Invalid image format", rfl⟩
        ⟨.nonString, List.mem_cons_self _ _, trivial⟩
    | str s =>
      by_cases hsize : 70254592 < 5 * (utf16Encode s.data).length
      · refine iff_of_true
          ⟨"One or more images too large. Maximum size is 10MB per image", ?_⟩
          ⟨.str s, List.mem_cons_self _ _, Or.inl hsize⟩
        simp [processImages, hsize]
      · cases hmu : matchDataURL s with
        | none =>
          refine iff_of_true ⟨"Invalid image format", ?_⟩
            ⟨.str s, List.mem_cons_self _ _, Or.inr (Or.inl hmu)⟩
          simp [processImages, hsize, hmu]
        | some p =>
          by_cases hct : ALLOWED_MEDIA_TYPES.contains p.1 = true
          · have hmem : p.1 ∈ ALLOWED_MEDIA_TYPES := List.elem_iff.mp hct
            have hstep : processImages (.str s :: rest) =
                (processImages rest).map (⟨p.1, p.2⟩ :: ·) := by
              simp [processImages, hsize, hmu, hmem]
            constructor
            · intro ⟨m, hm⟩
              rw [hstep] at hm
              cases hr : processImages rest with
              | error m2 =>
                obtain ⟨w, hw, hbad⟩ := ih.mp ⟨m2, hr⟩
                exact ⟨w, List.mem_cons_of_mem _ hw, hbad⟩
              | ok cs => rw [hr] at hm; cases hm
            · intro ⟨w, hw, hbad⟩
              rcases List.mem_cons.mp hw with rfl | hw2
              · exfalso
                rcases hbad with hb | hb | ⟨mt, dat, hmd, hnotmem⟩
                · exact hsize hb
                · rw [hmu] at hb; cases hb
                · rw [hmu] at hmd
                  simp only [Option.some.injEq] at hmd
                  rw [hmd] at hmem
                  exact hnotmem hmem
              · obtain ⟨m, hm⟩ := ih.mpr ⟨w, hw2, hbad⟩
                refine ⟨m, ?_⟩
                rw [hstep, hm]
                rfl
          · have hnm : p.1 ∉ ALLOWED_MEDIA_TYPES := fun hm => hct (List.elem_iff.mpr hm)
            refine iff_of_true
              ⟨"Unsupported image format. Use JPEG, PNG, GIF, or WebP", ?_⟩
              ⟨.str s, List.mem_cons_self _ _,
                Or.inr (Or.inr ⟨p.1, p.2, by rw [hmu], hnm⟩)⟩
            simp [processImages, hsize, hmu, hnm]

/-- The analyze handler (rate limit passed, key configured) answers 400
exactly when the image list is empty, longer than 4, or contains a
failing element. -/
theorem analyze400_iff (imgs : List ImgVal) :
    isAnalyze400 (analyzePOST true true imgs) = true ↔
      (imgs = [] ∨ 4 < imgs.length ∨ ∃ v ∈ imgs, badImage v) := by
  by_cases h0 : imgs.length = 0
  · have hnil : imgs = [] := List.length_eq_zero.mp h0
    subst hnil
    exact iff_of_true (by simp [analyzePOST, isAnalyze400]) (Or.inl rfl)
  · by_cases h4 : 4 < imgs.length
    · refine iff_of_true ?_ (Or.inr (Or.inl h4))
      simp [analyzePOST, h0, h4, isAnalyze400]
    · have hstep : analyzePOST true true imgs =
          match processImages imgs with
          | .error m => .invalidImage m
          | .ok cs => .upstream cs := by
        simp [analyzePOST, h0, h4]
      cases hp : processImages imgs with
      | error m =>
        refine iff_of_true ?_
          (Or.inr (Or.inr ((processImages_error_iff imgs).mp ⟨m, hp⟩)))
        rw [hstep, hp]
        rfl
      | ok cs =>
        refine iff_of_false ?_ ?_
        · rw [hstep, hp]
          simp [isAnalyze400]
        · rintro (h | h | hbad)
          · exact h0 (by rw [h]; rfl)
          · exact h4 h
          · obtain ⟨m, hm⟩ := (processImages_error_iff imgs).mpr hbad
            rw [hp] at hm
            cases hm

/-- Any element whose data URL declares `image/bmp` fails the per-image
checks, whatever its size: either the URL does not match at all, or the
captured media type starts with `image/bmp` and so is off the whitelist. -/
theorem bmp_badImage (d : String) : badImage (.str ("data:image/bmp;base64," ++ d)) := by
  cases hmu : matchDataURL ("data:image/bmp;base64," ++ d) with
  | none => exact Or.inr (Or.inl hmu)
  | some p =>
    refine Or.inr (Or.inr ⟨p.1, p.2, by rw [hmu], ?_⟩)
    intro hmem
    have hsound := matchDataURL_sound _ p.1 p.2 (by rw [hmu])
    have hdrop : ("data:image/bmp;base64," ++ d).data.drop 5 =
        "image/bmp;base64,".data ++ d.data := by
      have hdata : ("data:image/bmp;base64," ++ d).data =
          "data:".data ++ ("image/bmp;base64,".data ++ d.data) := by
        rw [String.data_append]
        rw [show "data:image/bmp;base64,".data =
          "data:".data ++ "image/bmp;base64,".data by decide]
        rw [List.append_assoc]
      rw [hdata, List.drop_left' (by decide)]
    rw [hdrop] at hsound
    have h1 : (p.1.data ++ (b64marker ++ p.2.data)).take p.1.data.length = p.1.data :=
      List.take_left _ _
    rw [List.append_assoc] at hsound
    rw [hsound] at h1
    simp only [ALLOWED_MEDIA_TYPES, List.mem_cons, List.mem_singleton,
      List.not_mem_nil, or_false] at hmem
    rcases hmem with h | h | h | h <;>
      rw [h] at h1 <;>
      rw [List.take_append_of_le_length (by decide)] at h1 <;>
      exact absurd h1 (by decide)

/-- C5: with the rate limit passed and the credential configured, the
analyze handler answers 400, and never reaches the upstream call, exactly
when the image list is empty, has more than 4 elements, or contains a
non-string, oversized, pattern-breaking or wrong-MIME element; an
`image/bmp` payload is rejected regardless of size. -/
theorem C5_analyze_validation :
    (∀ imgs : List ImgVal,
      isAnalyze400 (analyzePOST true true imgs) = true ↔
        (imgs = [] ∨ 4 < imgs.length ∨ ∃ v ∈ imgs, badImage v)) ∧
    (∀ imgs cs, isAnalyze400 (analyzePOST true true imgs) = true →
      analyzePOST true true imgs ≠ AnalyzeOutcome.upstream cs) ∧
    (∀ d : String,
      isAnalyze400 (analyzePOST true true [.str ("data:image/bmp;base64," ++ d)]) = true) := by
  refine ⟨analyze400_iff, ?_, ?_⟩
  · intro imgs cs h400 hup
    rw [hup] at h400
    cases h400
  · intro d
    exact (analyze400_iff _).mpr
      (Or.inr (Or.inr ⟨_, List.mem_singleton.mpr rfl, bmp_badImage d⟩))

/-- A character's code point is below 0x110000 and outside the surrogate
range. -/
theorem char_toNat_valid (c : Char) :
    c.toNat < 1114112 ∧ (c.toNat < 55296 ∨ 57343 < c.toNat) := by
  have h : c.val.toNat.isValidChar := c.valid
  unfold Nat.isValidChar at h
  have heq : c.toNat = c.val.toNat := rfl
  rw [heq]
  omega

/-- UTF-8 encoding emits bytes below 256. -/
theorem utf8EncodeChar_lt (c : Char) : ∀ b ∈ utf8EncodeChar c, b < 256 := by
  intro b hb
  have hv := (char_toNat_valid c).1
  simp only [utf8EncodeChar] at hb
  split_ifs at hb <;> simp at hb <;> omega

/-- UTF-8 encoding emits at least one byte per character. -/
theorem utf8EncodeChar_ne_nil (c : Char) : utf8EncodeChar c ≠ [] := by
  simp only [utf8EncodeChar]
  split_ifs <;> simp

/-- All bytes of an encoded string are below 256. -/
theorem utf8Encode_lt : ∀ cs : List Char, ∀ b ∈ utf8Encode cs, b < 256 := by
  intro cs
  induction cs with
  | nil => intro b hb; simp [utf8Encode] at hb
  | cons c cs ih =>
    intro b hb
    simp only [utf8Encode, List.mem_append] at hb
    rcases hb with h | h
    · exact utf8EncodeChar_lt c b h
    · exact ih b h

/-- Decoding one encoded character from the front of a byte stream
yields that character and continues on the remainder. -/
theorem utf8DecodeF_encodeChar (c : Char) (rest : List Nat) (fuel : Nat) :
    utf8DecodeF (fuel + 1) (utf8EncodeChar c ++ rest) =
      (utf8DecodeF fuel rest).map (c :: ·) := by
  obtain ⟨hmax, hsur⟩ := char_toNat_valid c
  by_cases h1 : c.toNat < 128
  · rw [show utf8EncodeChar c = [c.toNat] from by unfold utf8EncodeChar; rw [if_pos h1]]
    simp only [List.append_eq, List.cons_append, List.nil_append, utf8DecodeF]
    rw [if_pos h1, Char.ofNat_toNat]
  · by_cases h2 : c.toNat < 2048
    · rw [show utf8EncodeChar c = [192 + c.toNat / 64, 128 + c.toNat % 64] from by
        unfold utf8EncodeChar; rw [if_neg h1, if_pos h2]]
      have hb0 : ¬(192 + c.toNat / 64 < 128) := by omega
      have hb1 : ¬(192 + c.toNat / 64 < 192) := by omega
      have hb2 : 192 + c.toNat / 64 < 224 := by omega
      have hc1 : 128 ≤ 128 + c.toNat % 64 ∧ 128 + c.toNat % 64 < 192 := ⟨by omega, by omega⟩
      have harith : (192 + c.toNat / 64 - 192) * 64 + (128 + c.toNat % 64 - 128) = c.toNat := by
        omega
      simp only [List.append_eq, List.cons_append, List.nil_append, utf8DecodeF,
        List.getD_cons_zero, List.drop_succ_cons, List.drop_zero]
      rw [if_neg hb0, if_neg hb1, if_pos hb2, if_pos hc1, harith,
        if_pos (by omega : 128 ≤ c.toNat), Char.ofNat_toNat]
    · by_cases h3 : c.toNat < 65536
      · rw [show utf8EncodeChar c =
            [224 + c.toNat / 4096, 128 + c.toNat / 64 % 64, 128 + c.toNat % 64] from by
          unfold utf8EncodeChar; rw [if_neg h1, if_neg h2, if_pos h3]]
        have hb0 : ¬(224 + c.toNat / 4096 < 128) := by omega
        have hb1 : ¬(224 + c.toNat / 4096 < 192) := by omega
        have hb2 : ¬(224 + c.toNat / 4096 < 224) := by omega
        have hb3 : 224 + c.toNat / 4096 < 240 := by omega
        have hc1 : (128 ≤ 128 + c.toNat / 64 % 64 ∧ 128 + c.toNat / 64 % 64 < 192) ∧
            128 ≤ 128 + c.toNat % 64 ∧ 128 + c.toNat % 64 < 192 :=
          ⟨⟨by omega, by omega⟩, by omega, by omega⟩
        have harith : (224 + c.toNat / 4096 - 224) * 4096 +
            (128 + c.toNat / 64 % 64 - 128) * 64 + (128 + c.toNat % 64 - 128) = c.toNat := by
          omega
        have hrange : 2048 ≤ c.toNat ∧ (c.toNat < 55296 ∨ 57343 < c.toNat) := ⟨by omega, hsur⟩
        simp only [List.append_eq, List.cons_append, List.nil_append, utf8DecodeF,
          List.getD_cons_zero, List.getD_cons_succ, List.drop_succ_cons, List.drop_zero]
        rw [if_neg hb0, if_neg hb1, if_neg hb2, if_pos hb3, if_pos hc1, harith,
          if_pos hrange, Char.ofNat_toNat]
      · rw [show utf8EncodeChar c =
            [240 + c.toNat / 262144, 128 + c.toNat / 4096 % 64, 128 + c.toNat / 64 % 64,
             128 + c.toNat % 64] from by
          unfold utf8EncodeChar; rw [if_neg h1, if_neg h2, if_neg h3]]
        have hb0 : ¬(240 + c.toNat / 262144 < 128) := by omega
        have hb1 : ¬(240 + c.toNat / 262144 < 192) := by omega
        have hb2 : ¬(240 + c.toNat / 262144 < 224) := by omega
        have hb3 : ¬(240 + c.toNat / 262144 < 240) := by omega
        have hb4 : 240 + c.toNat / 262144 < 248 := by omega
        have hc1 : (128 ≤ 128 + c.toNat / 4096 % 64 ∧ 128 + c.toNat / 4096 % 64 < 192) ∧
            (128 ≤ 128 + c.toNat / 64 % 64 ∧ 128 + c.toNat / 64 % 64 < 192) ∧
            128 ≤ 128 + c.toNat % 64 ∧ 128 + c.toNat % 64 < 192 :=
          ⟨⟨by omega, by omega⟩, ⟨by omega, by omega⟩, by omega, by omega⟩
        have harith : (240 + c.toNat / 262144 - 240) * 262144 +
            (128 + c.toNat / 4096 % 64 - 128) * 4096 +
            (128 + c.toNat / 64 % 64 - 128) * 64 + (128 + c.toNat % 64 - 128) = c.toNat := by
          omega
        have hrange : 65536 ≤ c.toNat ∧ c.toNat < 1114112 := ⟨by omega, hmax⟩
        simp only [List.append_eq, List.cons_append, List.nil_append, utf8DecodeF,
          List.getD_cons_zero, List.getD_cons_succ, List.drop_succ_cons, List.drop_zero]
        rw [if_neg hb0, if_neg hb1, if_neg hb2, if_neg hb3, if_pos hb4, if_pos hc1, harith,
          if_pos hrange, Char.ofNat_toNat]

/-- With fuel at least the number of characters, decoding inverts
encoding. -/
theorem utf8DecodeF_encode : ∀ (cs : List Char) (fuel : Nat), cs.length ≤ fuel →
    utf8DecodeF fuel (utf8Encode cs) = some cs := by
  intro cs
  induction cs with
  | nil =>
    intro fuel _
    cases fuel <;> rfl
  | cons c cs ih =>
    intro fuel hf
    cases fuel with
    | zero => simp at hf
    | succ f =>
      show utf8DecodeF (f + 1) (utf8EncodeChar c ++ utf8Encode cs) = _
      rw [utf8DecodeF_encodeChar, ih f (by simpa using hf)]
      rfl

/-- Encoding emits at least one byte per character. -/
theorem utf8Encode_length_ge : ∀ cs : List Char, cs.length ≤ (utf8Encode cs).length := by
  intro cs
  induction cs with
  | nil => simp [utf8Encode]
  | cons c cs ih =>
    show (c :: cs).length ≤ (utf8EncodeChar c ++ utf8Encode cs).length
    rw [List.length_append, List.length_cons]
    have h1 : 1 ≤ (utf8EncodeChar c).length := by
      rcases hn : utf8EncodeChar c with _ | _
      · exact absurd hn (utf8EncodeChar_ne_nil c)
      · simp
    omega

/-- UTF-8 round trip: decoding an encoded string restores it. -/
theorem utf8_roundtrip (cs : List Char) : utf8Decode (utf8Encode cs) = some cs :=
  utf8DecodeF_encode cs (utf8Encode cs).length (utf8Encode_length_ge cs)

/-- Every character the base64 alphabet function can emit is ASCII. -/
theorem b64chr_code_lt (n : Nat) : (b64chr n).toNat < 128 := by
  by_cases h : n < 64
  · exact (show ∀ m, m < 64 → (b64chr m).toNat < 128 by decide) n h
  · unfold b64chr
    rw [List.getD_eq_default]
    · decide
    · rw [show ("ABCDEFGHIJKLMNOPQRSTUVWXYZabcdefghijklmnopqrstuvwxyz0123456789+/".data).length
        = 64 from by decide]
      omega

/-- The alphabet never emits the padding character. -/
theorem b64chr_nepad : ∀ m, m < 64 → ¬(b64chr m = '=') := by decide

/-- Alphabet index lookup inverts the alphabet function on 6-bit values. -/
theorem b64idx_b64chr : ∀ m, m < 64 → b64idx (b64chr m) = some m := by decide

/-- Every character `btoa` emits is ASCII. -/
theorem btoa_codes_lt : ∀ (bs : List Nat), ∀ ch ∈ btoa bs, ch.toNat < 128
  | [] => by intro ch h; simp [btoa] at h
  | [a] => by
    intro ch h
    simp only [btoa, List.mem_cons, List.not_mem_nil, or_false] at h
    rcases h with h | h | h | h <;> subst h
    · exact b64chr_code_lt _
    · exact b64chr_code_lt _
    · decide
    · decide
  | [a, b] => by
    intro ch h
    simp only [btoa, List.mem_cons, List.not_mem_nil, or_false] at h
    rcases h with h | h | h | h <;> subst h
    · exact b64chr_code_lt _
    · exact b64chr_code_lt _
    · exact b64chr_code_lt _
    · decide
  | a :: b :: c :: rest => by
    intro ch h
    simp only [btoa, List.mem_cons] at h
    rcases h with h | h | h | h | h
    · subst h; exact b64chr_code_lt _
    · subst h; exact b64chr_code_lt _
    · subst h; exact b64chr_code_lt _
    · subst h; exact b64chr_code_lt _
    · exact btoa_codes_lt rest ch h

/-- Source `atob` inverts `btoa` on byte lists (char codes below 256, as every
use site guarantees). -/
theorem atobD_btoa : ∀ (bs : List Nat), (∀ b ∈ bs, b < 256) → atobD (btoa bs) = some bs
  | [], _ => rfl
  | [a], h => by
    have ha : a < 256 := h a (by simp)
    simp only [btoa, atobD]
    rw [if_pos (by simp)]
    rw [b64idx_b64chr _ (by omega), b64idx_b64chr _ (by omega)]
    show some [a / 4 * 4 + a % 4 * 16 / 16] = some [a]
    rw [show a / 4 * 4 + a % 4 * 16 / 16 = a from by omega]
  | [a, b], h => by
    have ha : a < 256 := h a (by simp)
    have hb : b < 256 := h b (by simp)
    simp only [btoa, atobD]
    rw [if_neg (fun hcon => b64chr_nepad _ (by omega) hcon.1)]
    rw [if_pos (by simp)]
    rw [b64idx_b64chr _ (by omega), b64idx_b64chr _ (by omega), b64idx_b64chr _ (by omega)]
    show some [a / 4 * 4 + (a % 4 * 16 + b / 16) / 16,
      (a % 4 * 16 + b / 16) % 16 * 16 + b % 16 * 4 / 4] = some [a, b]
    rw [show a / 4 * 4 + (a % 4 * 16 + b / 16) / 16 = a from by omega,
      show (a % 4 * 16 + b / 16) % 16 * 16 + b % 16 * 4 / 4 = b from by omega]
  | a :: b :: c :: rest, h => by
    have ha : a < 256 := h a (by simp)
    have hb : b < 256 := h b (by simp)
    have hc : c < 256 := h c (by simp)
    have hrec := atobD_btoa rest (fun x hx => h x (by simp [hx]))
    simp only [btoa, atobD]
    rw [if_neg (fun hcon => b64chr_nepad _ (by omega) hcon.1)]
    rw [if_neg (fun hcon => b64chr_nepad _ (by omega) hcon.1)]
    rw [b64idx_b64chr _ (by omega), b64idx_b64chr _ (by omega), b64idx_b64chr _ (by omega),
      b64idx_b64chr _ (by omega), hrec]
    show some ((a / 4 * 4 + (a % 4 * 16 + b / 16) / 16) ::
      ((a % 4 * 16 + b / 16) % 16 * 16 + (b % 16 * 4 + c / 64) / 4) ::
      ((b % 16 * 4 + c / 64) % 4 * 64 + c % 64) :: rest) = some (a :: b :: c :: rest)
    rw [show a / 4 * 4 + (a % 4 * 16 + b / 16) / 16 = a from by omega,
      show (a % 4 * 16 + b / 16) % 16 * 16 + (b % 16 * 4 + c / 64) / 4 = b from by omega,
      show (b % 16 * 4 + c / 64) % 4 * 64 + c % 64 = c from by omega]

/-- Source `btoa` of a nonempty byte list is nonempty. -/
theorem btoa_ne_nil : ∀ (bs : List Nat), bs ≠ [] → btoa bs ≠ []
  | [], h => absurd rfl h
  | [_], _ => by simp [btoa]
  | [_, _], _ => by simp [btoa]
  | _ :: _ :: _ :: _, _ => by simp [btoa]

/-- Every key character code is ASCII. -/
theorem keyCodes_lt : ∀ j, j < 25 → keyCodes.getD j 0 < 128 := by decide

/-- The XOR layer preserves length. -/
theorem xorKeyFrom_length : ∀ (bs : List Nat) (i : Nat), (xorKeyFrom i bs).length = bs.length := by
  intro bs
  induction bs with
  | nil => intro i; rfl
  | cons b bs ih => intro i; simp [xorKeyFrom, ih]

/-- The XOR layer keeps ASCII codes ASCII. -/
theorem xorKeyFrom_lt : ∀ (bs : List Nat) (i : Nat), (∀ b ∈ bs, b < 128) →
    ∀ b ∈ xorKeyFrom i bs, b < 128 := by
  intro bs
  induction bs with
  | nil => intro i _ b hb; simp [xorKeyFrom] at hb
  | cons x bs ih =>
    intro i h b hb
    simp only [xorKeyFrom, List.mem_cons] at hb
    rcases hb with hb | hb
    · subst hb
      have h1 : x < 2 ^ 7 := h x (by simp)
      have h2 : keyCodes.getD (i % keyCodes.length) 0 < 2 ^ 7 :=
        keyCodes_lt (i % keyCodes.length) (Nat.mod_lt _ (by decide))
      exact Nat.xor_lt_two_pow h1 h2
    · exact ih (i + 1) (fun y hy => h y (by simp [hy])) b hb

/-- XORing twice against the key stream restores the input. -/
theorem xorKeyFrom_involution : ∀ (bs : List Nat) (i : Nat),
    xorKeyFrom i (xorKeyFrom i bs) = bs := by
  intro bs
  induction bs with
  | nil => intro i; rfl
  | cons b bs ih =>
    intro i
    simp only [xorKeyFrom]
    rw [Nat.xor_cancel_right, ih]

/-- Rebuilding characters from their own codes is the identity. -/
theorem map_ofNat_toNat (cs : List Char) : (cs.map Char.toNat).map Char.ofNat = cs := by
  rw [List.map_map]
  rw [show Char.ofNat ∘ Char.toNat = id from funext Char.ofNat_toNat]
  exact List.map_id cs

/-- Source `encrypt` of a nonempty string is nonempty. -/
theorem encrypt_ne_empty (s : String) (h : s ≠ "") : encrypt s ≠ "" := by
  intro hemp
  have hdata : btoa (xorKey ((btoa (utf8Encode s.data)).map Char.toNat)) = [] :=
    congrArg String.data hemp
  have hs : s.data ≠ [] := by
    intro hd
    apply h
    have : s = ⟨s.data⟩ := rfl
    rw [this, hd]
  have h1 : utf8Encode s.data ≠ [] := by
    rcases hd : s.data with _ | ⟨c, cs⟩
    · exact absurd hd hs
    · show utf8EncodeChar c ++ utf8Encode cs ≠ []
      simp [utf8EncodeChar_ne_nil c]
  have h2 : (btoa (utf8Encode s.data)).map Char.toNat ≠ [] := by
    simp [btoa_ne_nil _ h1]
  have h3 : xorKey ((btoa (utf8Encode s.data)).map Char.toNat) ≠ [] := by
    intro hx
    apply h2
    have hx2 : xorKeyFrom 0 ((btoa (utf8Encode s.data)).map Char.toNat) = [] := hx
    have hlen := xorKeyFrom_length ((btoa (utf8Encode s.data)).map Char.toNat) 0
    rw [hx2] at hlen
    exact List.length_eq_zero.mp hlen.symm
  exact btoa_ne_nil _ h3 hdata

/-- Decryption inverts encryption on every (well-formed Unicode) string. -/
theorem decrypt_encrypt (s : String) : decrypt (encrypt s) = s := by
  have hb64lt : ∀ b ∈ (btoa (utf8Encode s.data)).map Char.toNat, b < 128 := by
    intro b hb
    simp only [List.mem_map] at hb
    obtain ⟨ch, hch, rfl⟩ := hb
    exact btoa_codes_lt _ ch hch
  have hxor128 : ∀ b ∈ xorKey ((btoa (utf8Encode s.data)).map Char.toNat), b < 128 :=
    xorKeyFrom_lt _ 0 hb64lt
  unfold decrypt encrypt
  rw [show (String.mk (btoa (xorKey ((btoa (utf8Encode s.data)).map Char.toNat)))).data =
    btoa (xorKey ((btoa (utf8Encode s.data)).map Char.toNat)) from rfl]
  rw [atobD_btoa _ (fun b hb => lt_trans (hxor128 b hb) (by omega))]
  dsimp only
  rw [show xorKey (xorKey ((btoa (utf8Encode s.data)).map Char.toNat)) =
    (btoa (utf8Encode s.data)).map Char.toNat from xorKeyFrom_involution _ 0]
  rw [map_ofNat_toNat]
  rw [atobD_btoa _ (utf8Encode_lt s.data)]
  dsimp only
  rw [utf8_roundtrip]

/-- C9: `decrypt (encrypt s)) = s` for every string, and consequently
`secureGet` after `secureSet` returns the stored value whenever the value
survives serialization (`parse (stringify v) = some v`, with the
serializer output nonempty as JSON always is). -/
theorem C9_secure_storage_roundtrip :
    (∀ s : String, decrypt (encrypt s) = s) ∧
    (∀ (α : Type) (stringify : α → String) (parse : String → Option α) (v : α)
       (key : String) (dflt : α) (st : LocalStorage),
      parse (stringify v) = some v → stringify v ≠ "" →
      secureGet parse key dflt (secureSet stringify key v st) = v) := by
  refine ⟨decrypt_encrypt, ?_⟩
  intro α stringify parse v key dflt st hparse hne
  unfold secureGet secureSet setItem
  simp only [if_pos rfl, if_true]
  rw [if_neg (encrypt_ne_empty _ hne)]
  rw [decrypt_encrypt]
  rw [if_neg hne]
  rw [hparse]

end Architech
